import Mathlib

/-!
Verification of the development-tools repository: a shallow embedding of
the markdown hierarchy parser and GitLab structure creator
(create-gitlab-projects/gitlab.py), the secrets provisioner
(init-github-cicd/set-secrets.py) and the repository lister
(clone-all-gitlab-projects/fetch_repos.py), with theorems settling the
specification claims.
-/

namespace DevTools

/-! Character-level helpers mirroring Python string semantics. -/

/-- The whitespace class of Python (matching the regex class and str.strip). -/
def isWs (c : Char) : Bool :=
  c = ' ' || c = '\t' || c = '\n' || c = '\r' || c = '\x0b' || c = '\x0c'

/-- Python str.strip(): drop leading and trailing whitespace characters. -/
def stripChars (cs : List Char) : List Char :=
  ((cs.dropWhile isWs).reverse.dropWhile isWs).reverse

/-- Python str.split with separator a newline character. -/
def splitOnNl : List Char → List (List Char)
  | [] => [[]]
  | c :: rest =>
    if c = '\n' then [] :: splitOnNl rest
    else
      match splitOnNl rest with
      | [] => [[c]]
      | l :: ls => (c :: l) :: ls

/-- Check that the first list is an initial segment of the second. -/
def leadMatch : List Char → List Char → Bool
  | [], _ => true
  | _ :: _, [] => false
  | p :: ps, c :: cs => p = c && leadMatch ps cs

/-- The backtick character, written by code point. -/
def btick : Char := Char.ofNat 96

/-! The markdown hierarchy parser of MarkdownParser.parse. -/

/-- A parsed hierarchy node: display name, nesting level, ordered children.
This is the item dictionary built by MarkdownParser.parse. -/
inductive Node : Type where
  | mk (name : String) (level : Nat) (children : List Node)
deriving Repr

/-- Stored nesting level of a node. -/
def Node.level : Node → Nat
  | .mk _ l _ => l

/-- Stored display name of a node. -/
def Node.name : Node → String
  | .mk n _ _ => n

/-- Stored children list of a node. -/
def Node.children : Node → List Node
  | .mk _ _ c => c

/-- The skip test of the parse loop: a line is skipped when its stripped
form is empty or starts with three backticks. -/
def isSkippedLine (line : List Char) : Bool :=
  let s := stripChars line
  s.isEmpty || leadMatch [btick, btick, btick] s

/-- Matching of one line against the qualifying pattern: optional leading
whitespace, a literal dash, at least one whitespace character, then a
non-empty remainder; returns the level (leading-whitespace length divided
by two) and the stripped name, exactly as the parse loop computes them.
The remainder group is greedy over the rest of the line, and when only
whitespace follows the dash it can still match a single whitespace
character provided at least two follow the dash, giving an empty name. -/
def matchLine (line : List Char) : Option (Nat × List Char) :=
  let ws := line.takeWhile isWs
  match line.dropWhile isWs with
  | '-' :: rest =>
    let ws2 := rest.takeWhile isWs
    let rest3 := rest.dropWhile isWs
    if ws2.isEmpty then none
    else if rest3.isEmpty then
      if 2 ≤ ws2.length then some (ws.length / 2, []) else none
    else some (ws.length / 2, stripChars rest3)
  | _ => none

/-- A stack frame of the parse loop: an item still open for children. -/
structure Frame : Type where
  fname : List Char
  flevel : Nat
  fchildren : List Node
deriving Repr

/-- Turn a finished frame into a node. -/
def closeFrame (f : Frame) : Node :=
  .mk ⟨f.fname⟩ f.flevel f.fchildren

/-- The parser state: finished roots so far and the stack of open
ancestors, most recent first. -/
abbrev PState := List Node × List Frame

/-- Attach a finished node to the top frame of the stack, or append it
to the roots when the stack is empty. -/
def attachTop (n : Node) : PState → PState
  | (roots, []) => (roots ++ [n], [])
  | (roots, g :: gs) => (roots, { g with fchildren := g.fchildren ++ [n] } :: gs)

/-- The pop loop, structurally: the optional carry is a node already
closed and waiting to be attached to the next frame down (or to the
roots when no frame remains). -/
def popCarry (lvl : Nat) (roots : List Node) : Option Node → List Frame → PState
  | none, [] => (roots, [])
  | some n, [] => (roots ++ [n], [])
  | carry, f :: fs =>
    let f1 :=
      match carry with
      | none => f
      | some n => { f with fchildren := f.fchildren ++ [n] }
    if lvl ≤ f1.flevel then popCarry lvl roots (some (closeFrame f1)) fs
    else (roots, f1 :: fs)

/-- Pop every stack entry whose level is at least the new level, each
popped entry being attached as a child of the entry below it on the
stack, or appended to the roots when it was the last entry. -/
def popGE (lvl : Nat) (st : PState) : PState :=
  popCarry lvl st.1 none st.2

/-- One iteration of the parse loop on a single line. -/
def processLine (st : PState) (line : List Char) : PState :=
  if isSkippedLine line then st
  else
    match matchLine line with
    | none => st
    | some (lvl, name) =>
      let p := popGE lvl st
      (p.1, ⟨name, lvl, []⟩ :: p.2)

/-- Flush the stack at end of input: every remaining frame closes into
its parent, the bottom one into the roots. -/
def finishStack (st : PState) : List Node :=
  (popGE 0 st).1

/-- Parse a list of lines with the stack algorithm. -/
def parseLines (lines : List (List Char)) : List Node :=
  finishStack (lines.foldl processLine ([], []))

/-- MarkdownParser.parse: strip the content, split it on newlines, and
run the line loop. -/
def parse (content : String) : List Node :=
  parseLines (splitOnNl (stripChars content.data))

/-! A checker for the level invariant of parsed forests. -/

mutual
/-- Check that a node's level is strictly below the level of each of its
children, recursively through the whole subtree. -/
def nodeOk : Node → Bool
  | .mk _ lvl cs => childrenOk lvl cs

/-- Check a children list against the parent level and recursively. -/
def childrenOk : Nat → List Node → Bool
  | _, [] => true
  | lvl, c :: cs => (decide (lvl < c.level) && nodeOk c) && childrenOk lvl cs
end

/-- Invariant of one stack frame: its accumulated children all satisfy
the level invariant below the frame's level. -/
def FrameInv (f : Frame) : Prop :=
  childrenOk f.flevel f.fchildren = true

/-- The head of the frame list, when there is one, has level strictly
below the given bound. -/
def headLevelLt (lv : Nat) : List Frame → Prop
  | [] => True
  | g :: _ => g.flevel < lv

/-- Invariant of the parser stack: every frame is internally sound and
levels strictly decrease from the top of the stack downward. -/
def StackInv : List Frame → Prop
  | [] => True
  | f :: fs => FrameInv f ∧ headLevelLt f.flevel fs ∧ StackInv fs

/-- Invariant of a carried node: it is sound and can be attached as a
child of the next frame down. -/
def CarryInv : Option Node → List Frame → Prop
  | none, _ => True
  | some n, fs => nodeOk n = true ∧ headLevelLt n.level fs

/-- Invariant of the whole parser state. -/
def StInv (st : PState) : Prop :=
  st.1.all nodeOk = true ∧ StackInv st.2

/-! The GitLab structure creator (GitLabStructureCreator), embedded with
an API oracle and an explicit trace of network calls and dry-run plan
lines. In dry-run mode the constructor skips authentication entirely, so
the call trace is the complete record of network activity. -/

/-- Normalization of a display name to a URL slug: lowercase, then
spaces and underscores replaced with hyphens. -/
def slug (name : String) : String :=
  ⟨name.data.map (fun c =>
    let l := c.toLower
    if l = ' ' || l = '_' then '-' else l)⟩

/-- A group record as returned by the group-search endpoint. -/
structure ApiGroup where
  gid : Nat
  gpath : String
  gparent : Option Nat
deriving Repr, DecidableEq

/-- Outcome of a create call: success with the assigned id, an
already-been-taken client error, another client error, or any other
failure. -/
inductive CreateResult : Type where
  | success (id : Nat)
  | conflict
  | clientError
  | otherError
deriving Repr, DecidableEq

/-- The GitLab API oracle: results of group creation, group search
(none models a search that raises), and project creation. -/
structure Api where
  createGroup : String → String → Option Nat → CreateResult
  searchGroups : String → Option (List ApiGroup)
  createProject : String → String → Option Nat → CreateResult

/-- One network call issued by the creator. -/
inductive Call : Type where
  | groupCreate (name : String) (parent : Option Nat)
  | groupSearch (name : String)
  | projectCreate (name : String) (ns : Option Nat)
deriving Repr, DecidableEq

/-- One dry-run plan line printed by the creator. -/
inductive PrintLine : Type where
  | dryGroup (fullPath : String) (parent : Option Nat)
  | dryProject (fullPath : String) (ns : Option Nat)
deriving Repr, DecidableEq

/-- The non-dry-run body of _create_group: create, and on an
already-been-taken conflict search the existing groups and return the id
of the first whose path equals the slug and whose parent id matches;
otherwise no id. Returns the id outcome and the calls issued. -/
def createGroupStep (api : Api) (name : String) (parent : Option Nat) :
    Option Nat × List Call :=
  let path := slug name
  match api.createGroup name path parent with
  | .success i => (some i, [.groupCreate name parent])
  | .conflict =>
    match api.searchGroups name with
    | some gs =>
      match gs.find? (fun g => g.gpath == path && g.gparent == parent) with
      | some g => (some g.gid, [.groupCreate name parent, .groupSearch name])
      | none => (none, [.groupCreate name parent, .groupSearch name])
    | none => (none, [.groupCreate name parent, .groupSearch name])
  | .clientError => (none, [.groupCreate name parent])
  | .otherError => (none, [.groupCreate name parent])

mutual
/-- GitLabStructureCreator.create_structure on a list of items: each
leaf becomes a project-create, each internal node a group-create with
recursion into its children exactly when a usable group id was obtained;
returns the network calls issued and the dry-run plan lines printed. -/
def walkForest (api : Api) (dry : Bool) (nodes : List Node)
    (parent : Option Nat) (prefx : String) : List Call × List PrintLine :=
  match nodes with
  | [] => ([], [])
  | item :: rest =>
    let r1 := walkItem api dry item parent prefx
    let r2 := walkForest api dry rest parent prefx
    (r1.1 ++ r2.1, r1.2 ++ r2.2)

/-- Processing of a single item of create_structure. In dry-run mode a
plan line is printed and, for groups, no id is produced, so the children
are not visited; in real mode recursion into the children requires a
truthy (nonzero) group id, mirroring the integer truthiness test of the
source. -/
def walkItem (api : Api) (dry : Bool) (item : Node)
    (parent : Option Nat) (prefx : String) : List Call × List PrintLine :=
  match item with
  | .mk name _ children =>
    let fullPath := if prefx = "" then name else prefx ++ "/" ++ name
    match children with
    | [] =>
      if dry then ([], [.dryProject fullPath parent])
      else ([.projectCreate name parent], [])
    | c :: cs =>
      if dry then ([], [.dryGroup fullPath parent])
      else
        let r := createGroupStep api name parent
        match r.1 with
        | some gid =>
          if gid ≠ 0 then
            let sub := walkForest api dry (c :: cs) (some gid) fullPath
            (r.2 ++ sub.1, sub.2)
          else (r.2, [])
        | none => (r.2, [])
end

/-- Top-level entry of create_structure: the configured root parent
group id is used for the outermost items. -/
def create_structure (api : Api) (dry : Bool) (parentGroupId : Option Nat)
    (nodes : List Node) : List Call × List PrintLine :=
  walkForest api dry nodes parentGroupId ""

/-- The dry-run plan line that a single item produces. -/
def dryPlan (parent : Option Nat) (prefx : String) (n : Node) : PrintLine :=
  match n with
  | .mk name _ children =>
    let fullPath := if prefx = "" then name else prefx ++ "/" ++ name
    match children with
    | [] => .dryProject fullPath parent
    | _ :: _ => .dryGroup fullPath parent

/-- An API oracle that answers nothing useful; dry-run behavior cannot
depend on it. -/
def apiNone : Api where
  createGroup := fun _ _ _ => .otherError
  searchGroups := fun _ => none
  createProject := fun _ _ _ => .otherError

/-! The secrets provisioner (set-secrets.py): URL resolution and the
per-secret upload loop. -/

/-- Drop a required initial segment from a character list. -/
def dropLead (marker s : List Char) : Option (List Char) :=
  if leadMatch marker s then some (s.drop marker.length) else none

/-- The allowed remainders after the lazily matched repo group: nothing,
a .git suffix, a trailing slash, or both, mirroring the optional groups
that end both URL patterns. -/
def tailRem (rem : List Char) : Bool :=
  rem = [] || rem = ".git".data || rem = "/".data || rem = ".git/".data

/-- The lazily matched repository group: the shortest non-empty
slash-free prefix whose remainder is an allowed pattern tail. -/
def lazyRepoGroup : List Char → Option (List Char)
  | [] => none
  | c :: rest =>
    if c = '/' then none
    else if tailRem rest then some [c]
    else
      match lazyRepoGroup rest with
      | some g2 => some (c :: g2)
      | none => none

/-- After the host marker and separator: the greedy owner group runs to
the first slash and must be non-empty, then the repository group and
pattern tail must consume the rest of the string. -/
def splitOwnerRepo (r : List Char) : Option (List Char × List Char) :=
  let g1 := r.takeWhile (fun c => c ≠ '/')
  match r.dropWhile (fun c => c ≠ '/') with
  | _ :: r2 =>
    if g1.isEmpty then none
    else
      match lazyRepoGroup r2 with
      | some g2 => some (g1, g2)
      | none => none
  | [] => none

/-- Search of the first URL pattern: an occurrence of github.com
followed by a colon or slash whose tail parses as owner and repository,
leftmost occurrence first. -/
def searchUrl1 : List Char → Option (List Char × List Char)
  | [] => none
  | s :: rest =>
    match dropLead "github.com".data (s :: rest) with
    | some (c :: r) =>
      if c = ':' || c = '/' then
        match splitOwnerRepo r with
        | some p => some p
        | none => searchUrl1 rest
      else searchUrl1 rest
    | _ => searchUrl1 rest

/-- Search of the second URL pattern: an occurrence of the https host
form followed by a slash whose tail parses as owner and repository. -/
def searchUrl2 : List Char → Option (List Char × List Char)
  | [] => none
  | s :: rest =>
    match dropLead "https://github.com".data (s :: rest) with
    | some ('/' :: r) =>
      match splitOwnerRepo r with
      | some p => some p
      | none => searchUrl2 rest
    | _ => searchUrl2 rest

/-- Python str.rstrip with the four characters of the string .git: strip
every trailing character that is a dot, g, i or t. -/
def rstripGitSet (cs : List Char) : List Char :=
  (cs.reverse.dropWhile (fun c => c = '.' || c = 'g' || c = 'i' || c = 't')).reverse

/-- extract_repo_info: try the first pattern, then the second; on a
match return the owner group and the repository group with trailing
characters of the .git set stripped; otherwise nothing. -/
def extract_repo_info (url : String) : Option (String × String) :=
  match searchUrl1 url.data with
  | some (o, r) => some (⟨o⟩, ⟨rstripGitSet r⟩)
  | none =>
    match searchUrl2 url.data with
    | some (o, r) => some (⟨o⟩, ⟨rstripGitSet r⟩)
    | none => none

/-- The URL validation of main: the run aborts with exit code 1 when no
owner or repository was resolved (a falsy value: absent or empty). -/
def urlCheckExit (url : String) : Bool :=
  match extract_repo_info url with
  | none => true
  | some (o, r) => o = "" || r = ""

/-- create_secret reduced to its status check: the upload succeeds
exactly when the response status is 201 or 204. -/
def create_secret (status : Nat) : Bool :=
  status == 201 || status == 204

/-- The upload loop of main: every requested secret is attempted in
order and the successes are counted. -/
def provisionLoop (attempts : List (String × Nat)) : Nat :=
  attempts.foldl (fun cnt a => if create_secret a.2 then cnt + 1 else cnt) 0

/-- The final report of main: successes over total. -/
def secretsReport (attempts : List (String × Nat)) : Nat × Nat :=
  (provisionLoop attempts, attempts.length)

/-- The exit status of main after the upload loop: zero exactly when
every secret succeeded. -/
def secretsExitCode (attempts : List (String × Nat)) : Nat :=
  if provisionLoop attempts = attempts.length then 0 else 1

/-! The repository lister (fetch_repos.py). -/

/-- One project record of a listing page; an absent field is the empty
string, matching the dictionary-get default of the source. -/
structure RepoRec where
  ssh_url_to_repo : String
  path_with_namespace : String
deriving Repr, DecidableEq

/-- One page response: HTTP status and decoded record list. -/
structure PageResp where
  status : Nat
  body : List RepoRec
deriving Repr, DecidableEq

/-- The record loop of one page: append the clone address and namespace
path of every record whose two fields are both non-empty. -/
def appendPage (acc : List (String × String)) (body : List RepoRec) :
    List (String × String) :=
  body.foldl (fun a r =>
    if r.ssh_url_to_repo ≠ "" && r.path_with_namespace ≠ "" then
      a ++ [(r.ssh_url_to_repo, r.path_with_namespace)]
    else a) acc

/-- The pagination loop of get_all_repositories, fuelled: stop on a
non-200 status or an empty page, keeping everything collected so far,
else append the page and continue with the next page number. -/
def fetchLoop (server : Nat → PageResp) : Nat → Nat → List (String × String) →
    List (String × String)
  | 0, _, acc => acc
  | fuel + 1, page, acc =>
    let r := server page
    if r.status ≠ 200 then acc
    else if r.body = [] then acc
    else fetchLoop server fuel (page + 1) (appendPage acc r.body)

/-- get_all_repositories: run the pagination loop from page one with an
empty accumulator. -/
def get_all_repositories (server : Nat → PageResp) (fuel : Nat) :
    List (String × String) :=
  fetchLoop server fuel 1 []

/-- save_to_file: the text written to the output file, one line per
collected pair. -/
def save_to_file (repos : List (String × String)) : String :=
  String.join (repos.map (fun p => p.1 ++ " " ++ p.2 ++ "\n"))

/-- A concrete API oracle whose group creation always reports an
already-been-taken conflict and whose search returns two groups, the
second matching the slug team-x at top level. -/
def apiConflict : Api where
  createGroup := fun _ _ _ => .conflict
  searchGroups := fun _ => some [⟨7, "other", some 9⟩, ⟨42, "team-x", none⟩]
  createProject := fun _ _ _ => .success 5

/-- A concrete listing server: page one has one record, page two is
empty. -/
def serverTwoPages : Nat → PageResp :=
  fun page => if page = 1 then ⟨200, [⟨"s1", "p1"⟩]⟩ else ⟨200, []⟩

/-- A concrete listing server whose first page holds a record with an
empty clone address next to a complete record. -/
def serverWithEmpty : Nat → PageResp :=
  fun page =>
    if page = 1 then ⟨200, [⟨"", "skipped"⟩, ⟨"git@x:a/b.git", "a/b"⟩]⟩
    else ⟨200, []⟩

/-! Theorems. First the markdown parser claims. -/

/-- C1: MarkdownParser.parse follows the specified stack algorithm: a
qualifying line pops every stack entry whose level is at least the new
level, each popped entry attaching to the entry below it on the stack or
to the roots when none remains, an entry of smaller level stops the
popping, and the new node is pushed on the remaining stack; on the input
of one root a, child b, grandchild c the result is that single chain at
levels 0, 1, 2. -/
theorem parse_stack_algorithm :
    (∀ (st : PState) (line : List Char) (lvl : Nat) (name : List Char),
      isSkippedLine line = false →
      matchLine line = some (lvl, name) →
      processLine st line =
        ((popGE lvl st).1, ⟨name, lvl, []⟩ :: (popGE lvl st).2))
    ∧ (∀ (lvl : Nat) (roots : List Node) (f : Frame) (fs : List Frame),
      lvl ≤ f.flevel →
      popGE lvl (roots, f :: fs) = popGE lvl (attachTop (closeFrame f) (roots, fs)))
    ∧ (∀ (lvl : Nat) (roots : List Node) (f : Frame) (fs : List Frame),
      f.flevel < lvl →
      popGE lvl (roots, f :: fs) = (roots, f :: fs))
    ∧ parse "- a\n  - b\n    - c" =
        [.mk "a" 0 [.mk "b" 1 [.mk "c" 2 []]]] := by
  refine ⟨?_, ?_, ?_, rfl⟩
  · intro st line lvl name h1 h2
    simp [processLine, h1, h2]
  · intro lvl roots f fs h
    cases fs with
    | nil => simp [popGE, popCarry, attachTop, h]
    | cons g gs => simp [popGE, popCarry, attachTop, h]
  · intro lvl roots f fs h
    simp [popGE, popCarry, Nat.not_le.mpr h]

/-- Witness for the stack-algorithm theorem at a concrete state and
line. -/
theorem parse_stack_algorithm_witness :
    isSkippedLine "  - b".data = false
    ∧ matchLine "  - b".data = some (1, "b".data)
    ∧ processLine ([], [⟨"a".data, 0, []⟩]) "  - b".data =
        ((popGE 1 ([], [⟨"a".data, 0, []⟩])).1,
          ⟨"b".data, 1, []⟩ :: (popGE 1 ([], [⟨"a".data, 0, []⟩])).2) :=
  ⟨rfl, rfl, parse_stack_algorithm.1 _ _ 1 _ rfl rfl⟩

/-- C5: the level of a qualifying line is its leading-whitespace length
divided by two with integer rounding, so a line indented by one space is
assigned level zero exactly like an unindented line. -/
theorem level_is_half_indent :
    (∀ (line : List Char) (lvl : Nat) (name : List Char),
      matchLine line = some (lvl, name) →
      lvl = (line.takeWhile isWs).length / 2)
    ∧ matchLine " - x".data = some (0, "x".data)
    ∧ matchLine "- x".data = some (0, "x".data)
    ∧ parse "- a\n - x" = [.mk "a" 0 [], .mk "x" 0 []] := by
  refine ⟨?_, rfl, rfl, rfl⟩
  intro line lvl name h
  simp only [matchLine] at h
  split at h
  · split at h
    · exact absurd h (by simp)
    · split at h
      · split at h
        · simp only [Option.some.injEq, Prod.mk.injEq] at h
          exact h.1.symm
        · exact absurd h (by simp)
      · simp only [Option.some.injEq, Prod.mk.injEq] at h
        exact h.1.symm
  · exact absurd h (by simp)

/-- Witness for the level computation at the one-space-indented line. -/
theorem level_is_half_indent_witness :
    matchLine " - x".data = some (0, "x".data)
    ∧ 0 = ((" - x".data).takeWhile isWs).length / 2 :=
  ⟨rfl, level_is_half_indent.1 (" - x".data) 0 ("x".data) rfl⟩

/-- A skipped or non-matching line leaves the parser state unchanged. -/
theorem processLine_skip (st : PState) (line : List Char)
    (h : isSkippedLine line = true ∨ matchLine line = none) :
    processLine st line = st := by
  unfold processLine
  rcases h with h | h
  · simp [h]
  · cases hs : isSkippedLine line <;> simp [hs, h]

/-- C8: blank lines, fence-delimiter lines and lines not matching the
dash pattern are ignored: removing such a line anywhere in the input
leaves the parsed forest unchanged. -/
theorem ignored_lines_transparent :
    (∀ line : List Char, stripChars line = [] → isSkippedLine line = true)
    ∧ (∀ line : List Char,
        leadMatch [btick, btick, btick] (stripChars line) = true →
        isSkippedLine line = true)
    ∧ (∀ (ls1 ls2 : List (List Char)) (bad : List Char),
        isSkippedLine bad = true ∨ matchLine bad = none →
        parseLines (ls1 ++ bad :: ls2) = parseLines (ls1 ++ ls2)) := by
  refine ⟨?_, ?_, ?_⟩
  · intro line h
    simp [isSkippedLine, h]
  · intro line h
    simp [isSkippedLine, h]
  · intro ls1 ls2 bad h
    unfold parseLines
    rw [List.foldl_append, List.foldl_append, List.foldl_cons,
      processLine_skip _ _ h]

/-- Witness for transparency of an ignored line between two valid
lines. -/
theorem ignored_lines_transparent_witness :
    (isSkippedLine "x junk".data = true ∨ matchLine "x junk".data = none)
    ∧ parseLines (["- a".data] ++ "x junk".data :: ["  - b".data]) =
        parseLines (["- a".data] ++ ["  - b".data]) :=
  ⟨Or.inr rfl, ignored_lines_transparent.2.2 _ _ _ (Or.inr rfl)⟩

/-- Appending one child to a children list preserves soundness exactly
when the child is sound and deeper than the parent. -/
theorem childrenOk_append (lvl : Nat) (cs : List Node) (c : Node) :
    childrenOk lvl (cs ++ [c]) = true ↔
      childrenOk lvl cs = true ∧ lvl < c.level ∧ nodeOk c = true := by
  induction cs with
  | nil => simp [childrenOk]
  | cons d ds ih =>
    simp only [List.cons_append, List.append_eq, childrenOk,
      Bool.and_eq_true, decide_eq_true_eq]
    rw [ih]
    tauto

/-- The pop loop preserves the parser invariant and leaves a stack whose
top, if any, is strictly below the new level. -/
theorem popCarry_inv (lvl : Nat) :
    ∀ (fs : List Frame) (roots : List Node) (carry : Option Node),
      roots.all nodeOk = true → StackInv fs → CarryInv carry fs →
      (popCarry lvl roots carry fs).1.all nodeOk = true
      ∧ StackInv (popCarry lvl roots carry fs).2
      ∧ headLevelLt lvl (popCarry lvl roots carry fs).2 := by
  intro fs
  induction fs with
  | nil =>
    intro roots carry hr _ hc
    cases carry with
    | none => exact ⟨hr, trivial, trivial⟩
    | some n =>
      refine ⟨?_, trivial, trivial⟩
      simp only [popCarry, List.all_append, List.all_cons, List.all_nil,
        Bool.and_eq_true]
      exact ⟨hr, hc.1, trivial⟩
  | cons f fs ih =>
    intro roots carry hr hs hc
    obtain ⟨hF, hB, hS⟩ := hs
    cases carry with
    | none =>
      simp only [popCarry]
      by_cases hl : lvl ≤ f.flevel
      · simp only [hl, if_true]
        exact ih roots (some (closeFrame f)) hr hS ⟨hF, hB⟩
      · simp only [hl, if_false]
        exact ⟨hr, ⟨hF, hB, hS⟩, Nat.not_le.mp hl⟩
    | some n =>
      obtain ⟨hn, hnl⟩ := hc
      have hF1 : FrameInv { f with fchildren := f.fchildren ++ [n] } :=
        (childrenOk_append f.flevel f.fchildren n).mpr ⟨hF, hnl, hn⟩
      simp only [popCarry]
      by_cases hl : lvl ≤ f.flevel
      · simp only [hl, if_true]
        exact ih roots _ hr hS ⟨hF1, hB⟩
      · simp only [hl, if_false]
        exact ⟨hr, ⟨hF1, hB, hS⟩, Nat.not_le.mp hl⟩

/-- One parse-loop iteration preserves the parser invariant. -/
theorem processLine_inv (st : PState) (line : List Char) (h : StInv st) :
    StInv (processLine st line) := by
  unfold processLine
  by_cases hs : isSkippedLine line
  · simpa [hs] using h
  · cases hm : matchLine line with
    | none => simpa [hs, hm] using h
    | some p =>
      obtain ⟨lvl, name⟩ := p
      simp only [hs, hm, Bool.false_eq_true, if_false]
      have inv := popCarry_inv lvl st.2 st.1 none h.1 h.2 trivial
      exact ⟨inv.1, ⟨rfl, inv.2.2, inv.2.1⟩⟩

/-- The parse loop preserves the parser invariant over any line list. -/
theorem foldl_processLine_inv (lines : List (List Char)) :
    ∀ st : PState, StInv st → StInv (lines.foldl processLine st) := by
  induction lines with
  | nil => intro st h; exact h
  | cons l ls ih => intro st h; exact ih _ (processLine_inv st l h)

/-- C9: in every forest returned by MarkdownParser.parse, each node's
stored level is strictly less than the level of every one of its
children, recursively, for every input text. -/
theorem parse_level_invariant (content : String) :
    (parse content).all nodeOk = true := by
  unfold parse parseLines finishStack popGE
  have h := foldl_processLine_inv (splitOnNl (stripChars content.data))
    ([], []) ⟨rfl, trivial⟩
  exact (popCarry_inv 0 _ _ none h.1 h.2 trivial).1

/-! The structure-creator claims. -/

/-- A single item in dry-run mode only prints its plan line. -/
theorem walkItem_dry (api : Api) (item : Node) (parent : Option Nat)
    (prefx : String) :
    walkItem api true item parent prefx = ([], [dryPlan parent prefx item]) := by
  cases item with
  | mk name lvl children =>
    cases children with
    | nil => simp [walkItem, dryPlan]
    | cons c cs => simp [walkItem, dryPlan]

/-- C2 counterexample: in dry-run mode, on a tree whose root group has
one child project, the child's plan line is never printed and the
children are not visited, so dry run does not print every planned group
and project of the input tree. -/
theorem dry_run_skips_children_counterexample :
    create_structure apiNone true none [.mk "g" 0 [.mk "c" 1 []]] =
      ([], [.dryGroup "g" none])
    ∧ PrintLine.dryProject "g/c" none ∉
        (create_structure apiNone true none [.mk "g" 0 [.mk "c" 1 []]]).2 := by
  constructor
  · simp [create_structure, walkForest, walkItem]
  · simp [create_structure, walkForest, walkItem]

/-- C2 amended: in dry-run mode no network call is issued and exactly
the items of the current level are printed, one plan line each, while the
children of group nodes are not visited because no group id exists. -/
theorem dry_run_top_level_only (api : Api) (nodes : List Node)
    (parent : Option Nat) (prefx : String) :
    walkForest api true nodes parent prefx =
      ([], nodes.map (dryPlan parent prefx)) := by
  induction nodes with
  | nil => simp [walkForest]
  | cons item rest ih => simp [walkForest, walkItem_dry, ih]

/-- C4: when group creation hits an already-been-taken conflict, the
creator searches the existing groups; if one whose path equals the slug
and whose parent id matches exactly is found (and its id is truthy),
recursion proceeds into the children with that id after exactly the
create and search calls; if none matches, or the search fails, or the
create fails with any other error class, the node yields no id, its
children are never visited, and no creation call is issued for the
subtree beyond the single failed create. -/
theorem group_conflict_resolution :
    ∀ (api : Api) (name : String) (lvl : Nat) (c : Node) (cs : List Node)
      (parent : Option Nat) (prefx : String) (gs : List ApiGroup)
      (g : ApiGroup),
      (api.createGroup name (slug name) parent = .conflict →
        api.searchGroups name = some gs →
        gs.find? (fun g0 => g0.gpath == slug name && g0.gparent == parent) =
          some g →
        g.gid ≠ 0 →
        walkItem api false (.mk name lvl (c :: cs)) parent prefx =
          ([.groupCreate name parent, .groupSearch name] ++
            (walkForest api false (c :: cs) (some g.gid)
              (if prefx = "" then name else prefx ++ "/" ++ name)).1,
            (walkForest api false (c :: cs) (some g.gid)
              (if prefx = "" then name else prefx ++ "/" ++ name)).2))
      ∧ (api.createGroup name (slug name) parent = .conflict →
        api.searchGroups name = some gs →
        gs.find? (fun g0 => g0.gpath == slug name && g0.gparent == parent) =
          none →
        walkItem api false (.mk name lvl (c :: cs)) parent prefx =
          ([.groupCreate name parent, .groupSearch name], []))
      ∧ (api.createGroup name (slug name) parent = .conflict →
        api.searchGroups name = none →
        walkItem api false (.mk name lvl (c :: cs)) parent prefx =
          ([.groupCreate name parent, .groupSearch name], []))
      ∧ (api.createGroup name (slug name) parent = .clientError →
        walkItem api false (.mk name lvl (c :: cs)) parent prefx =
          ([.groupCreate name parent], []))
      ∧ (api.createGroup name (slug name) parent = .otherError →
        walkItem api false (.mk name lvl (c :: cs)) parent prefx =
          ([.groupCreate name parent], [])) := by
  intro api name lvl c cs parent prefx gs g
  refine ⟨?_, ?_, ?_, ?_, ?_⟩
  · intro h1 h2 h3 h4
    simp [walkItem, createGroupStep, h1, h2, h3, h4]
  · intro h1 h2 h3
    simp [walkItem, createGroupStep, h1, h2, h3]
  · intro h1 h2
    simp [walkItem, createGroupStep, h1, h2]
  · intro h1
    simp [walkItem, createGroupStep, h1]
  · intro h1
    simp [walkItem, createGroupStep, h1]

/-- Witness for the conflict-resolution theorem: a conflicting create
whose search finds the matching slug at the matching parent, so the
children are walked under the existing id 42. -/
theorem group_conflict_resolution_witness :
    apiConflict.createGroup "Team_X" (slug "Team_X") none = .conflict
    ∧ apiConflict.searchGroups "Team_X" =
        some [⟨7, "other", some 9⟩, ⟨42, "team-x", none⟩]
    ∧ [(⟨7, "other", some 9⟩ : ApiGroup), ⟨42, "team-x", none⟩].find?
        (fun g0 => g0.gpath == slug "Team_X" && g0.gparent == none) =
        some ⟨42, "team-x", none⟩
    ∧ walkItem apiConflict false (.mk "Team_X" 0 [.mk "leaf" 1 []]) none "" =
        ([.groupCreate "Team_X" none, .groupSearch "Team_X"] ++
          (walkForest apiConflict false [.mk "leaf" 1 []] (some 42) "Team_X").1,
          (walkForest apiConflict false [.mk "leaf" 1 []] (some 42) "Team_X").2) :=
  ⟨rfl, rfl, by decide,
    (group_conflict_resolution apiConflict "Team_X" 0 (.mk "leaf" 1 []) []
      none "" [⟨7, "other", some 9⟩, ⟨42, "team-x", none⟩]
      ⟨42, "team-x", none⟩).1 rfl rfl (by decide) (by decide)⟩

/-! The secrets-provisioner claims. -/

/-- C3: what extract_repo_info actually computes at the two specified
URLs: the owner resolves to acme, but the repository resolves to widge
rather than widget, because the final rstrip with the string .git strips
every trailing character of the set dot, g, i, t; a URL matching neither
pattern yields nothing and the main URL check exits with code 1. -/
theorem extract_repo_info_eval :
    extract_repo_info "git@github.com:acme/widget.git" = some ("acme", "widge")
    ∧ extract_repo_info "https://github.com/acme/widget" = some ("acme", "widge")
    ∧ rstripGitSet "widget".data = "widge".data
    ∧ extract_repo_info "ftp://example.org/x" = none
    ∧ urlCheckExit "ftp://example.org/x" = true :=
  ⟨rfl, rfl, rfl, rfl, rfl⟩

/-- Counting successes with a fold equals the length of the filtered
list. -/
theorem countLoop_eq (p : (String × Nat) → Bool) :
    ∀ (l : List (String × Nat)) (n : Nat),
      l.foldl (fun cnt a => if p a then cnt + 1 else cnt) n =
        n + (l.filter p).length := by
  intro l
  induction l with
  | nil => intro n; simp
  | cons a as ih =>
    intro n
    by_cases h : p a = true
    · simp [List.filter_cons, h, ih]
      omega
    · simp [List.filter_cons, h, ih]

/-- C6: a per-secret upload succeeds exactly for status 201 or 204,
every requested secret is attempted regardless of earlier failures, the
exit code is zero exactly when every secret succeeded, and a concrete
3-of-4 run reports the count 3/4 and exits non-zero. -/
theorem secrets_upload_status_policy :
    (∀ status : Nat, create_secret status = true ↔ status = 201 ∨ status = 204)
    ∧ (∀ attempts : List (String × Nat),
        provisionLoop attempts =
          (attempts.filter (fun a => create_secret a.2)).length)
    ∧ (∀ attempts : List (String × Nat),
        secretsExitCode attempts = 0 ↔
          provisionLoop attempts = attempts.length)
    ∧ secretsReport [("PRIVATE_KEY", 201), ("SERVER_ADDRESS", 204),
        ("SERVER_USERNAME", 422), ("SERVER_PATH", 201)] = (3, 4)
    ∧ secretsExitCode [("PRIVATE_KEY", 201), ("SERVER_ADDRESS", 204),
        ("SERVER_USERNAME", 422), ("SERVER_PATH", 201)] = 1 := by
  refine ⟨?_, ?_, ?_, rfl, rfl⟩
  · intro status
    simp [create_secret]
  · intro attempts
    simpa using countLoop_eq (fun a => create_secret a.2) attempts 0
  · intro attempts
    by_cases h : provisionLoop attempts = attempts.length <;>
      simp [secretsExitCode, h]

/-! The repository-lister claims. -/

/-- C7: the pagination loop stops on a non-200 status keeping what was
already collected, stops on an empty page keeping what was already
collected, otherwise appends the page and continues; in particular with
a non-empty page one and an empty page two only page-one records are
returned. -/
theorem pagination_stop_policy :
    (∀ (server : Nat → PageResp) (fuel page : Nat)
      (acc : List (String × String)),
      (server page).status ≠ 200 → fetchLoop server (fuel + 1) page acc = acc)
    ∧ (∀ (server : Nat → PageResp) (fuel page : Nat)
        (acc : List (String × String)),
        (server page).status = 200 → (server page).body = [] →
        fetchLoop server (fuel + 1) page acc = acc)
    ∧ (∀ (server : Nat → PageResp) (fuel page : Nat)
        (acc : List (String × String)),
        (server page).status = 200 → (server page).body ≠ [] →
        fetchLoop server (fuel + 1) page acc =
          fetchLoop server fuel (page + 1) (appendPage acc (server page).body))
    ∧ (∀ (server : Nat → PageResp) (fuel : Nat) (rs : List RepoRec),
        server 1 = ⟨200, rs⟩ → rs ≠ [] → server 2 = ⟨200, []⟩ →
        get_all_repositories server (fuel + 2) = appendPage [] rs) := by
  refine ⟨?_, ?_, ?_, ?_⟩
  · intro server fuel page acc h
    simp [fetchLoop, h]
  · intro server fuel page acc h1 h2
    simp [fetchLoop, h1, h2]
  · intro server fuel page acc h1 h2
    simp [fetchLoop, h1, h2]
  · intro server fuel rs h1 h2 h3
    show fetchLoop server (fuel + 1 + 1) 1 [] = appendPage [] rs
    rw [show fetchLoop server (fuel + 1 + 1) 1 [] =
        if (server 1).status ≠ 200 then [] else
        if (server 1).body = [] then [] else
        fetchLoop server (fuel + 1) 2 (appendPage [] (server 1).body)
      from rfl]
    simp [h1, h2, fetchLoop, h3]

/-- Witness for the pagination-stop theorem on a two-page server. -/
theorem pagination_stop_policy_witness :
    serverTwoPages 1 = ⟨200, [⟨"s1", "p1"⟩]⟩
    ∧ ([(⟨"s1", "p1"⟩ : RepoRec)] ≠ [])
    ∧ serverTwoPages 2 = ⟨200, []⟩
    ∧ get_all_repositories serverTwoPages 7 =
        appendPage [] [⟨"s1", "p1"⟩] :=
  ⟨rfl, by decide, rfl,
    pagination_stop_policy.2.2.2 serverTwoPages 5 [⟨"s1", "p1"⟩]
      rfl (by decide) rfl⟩

/-- One listing page contributes exactly its records with both fields
non-empty, in order, mapped to their pair form. -/
theorem appendPage_eq :
    ∀ (body : List RepoRec) (acc : List (String × String)),
      appendPage acc body = acc ++
        (body.filter fun r =>
          r.ssh_url_to_repo ≠ "" && r.path_with_namespace ≠ "").map
          (fun r => (r.ssh_url_to_repo, r.path_with_namespace)) := by
  intro body
  induction body with
  | nil => intro acc; simp [appendPage]
  | cons r rb ih =>
    intro acc
    show List.foldl _ _ (r :: rb) = _
    rw [List.foldl_cons]
    by_cases h : (r.ssh_url_to_repo ≠ "" && r.path_with_namespace ≠ "") = true
    · rw [if_pos h, show ∀ a, List.foldl _ a rb = appendPage a rb from fun _ => rfl,
        ih]
      simp only [Bool.and_eq_true, decide_eq_true_eq] at h
      simp [List.filter_cons, h.1, h.2]
    · rw [if_neg h, show ∀ a, List.foldl _ a rb = appendPage a rb from fun _ => rfl,
        ih]
      simp only [Bool.and_eq_true, decide_eq_true_eq] at h
      simp [List.filter_cons, h]

/-- Every pair the pagination loop returns has both fields non-empty,
provided the accumulator already does. -/
theorem fetchLoop_mem (server : Nat → PageResp) :
    ∀ (fuel page : Nat) (acc : List (String × String)),
      (∀ p ∈ acc, p.1 ≠ "" ∧ p.2 ≠ "") →
      ∀ p ∈ fetchLoop server fuel page acc, p.1 ≠ "" ∧ p.2 ≠ "" := by
  intro fuel
  induction fuel with
  | zero => intro page acc hacc p hp; exact hacc p hp
  | succ n ih =>
    intro page acc hacc p hp
    simp only [fetchLoop] at hp
    split at hp
    · exact hacc p hp
    · split at hp
      · exact hacc p hp
      · refine ih (page + 1) _ ?_ p hp
        intro q hq
        rw [appendPage_eq] at hq
        rcases List.mem_append.mp hq with h | h
        · exact hacc q h
        · obtain ⟨r, hr, rfl⟩ := List.mem_map.mp h
          have hf := List.of_mem_filter hr
          simp only [Bool.and_eq_true, decide_eq_true_eq] at hf
          exact hf

/-- C10: a record contributes a pair only when both its clone address
and namespace path are non-empty, and consequently every pair returned
by get_all_repositories has both components non-empty. -/
theorem lister_filters_empty_fields :
    (∀ (acc : List (String × String)) (body : List RepoRec),
      appendPage acc body = acc ++
        (body.filter fun r =>
          r.ssh_url_to_repo ≠ "" && r.path_with_namespace ≠ "").map
          (fun r => (r.ssh_url_to_repo, r.path_with_namespace)))
    ∧ (∀ (server : Nat → PageResp) (fuel : Nat) (p : String × String),
        p ∈ get_all_repositories server fuel → p.1 ≠ "" ∧ p.2 ≠ "") := by
  constructor
  · intro acc body
    exact appendPage_eq body acc
  · intro server fuel p hp
    exact fetchLoop_mem server fuel 1 [] (by intro q hq; cases hq) p hp

/-- Witness for the empty-field filter: a complete record's pair is
returned and both components are non-empty, while the record with an
empty clone address was dropped. -/
theorem lister_filters_empty_fields_witness :
    ("git@x:a/b.git", "a/b") ∈ get_all_repositories serverWithEmpty 3
    ∧ ("git@x:a/b.git" ≠ "" ∧ "a/b" ≠ "")
    ∧ ("", "skipped") ∉ get_all_repositories serverWithEmpty 3 :=
  ⟨by decide,
    lister_filters_empty_fields.2 serverWithEmpty 3 ("git@x:a/b.git", "a/b")
      (by decide),
    by decide⟩

end DevTools
